import Mathlib

/-!
Verification of the hazard-map generation script
(`scripts/generate_improved_hazard_maps.py`).

The script is shallowly embedded over `ℚ`: Python floats become exact
rationals, `math.floor` becomes `Int.floor`, Python's `&` on the
non-negative masks becomes `%`/`&&&`, and the process-wide `random`
module becomes an explicit state `σ` threaded through an abstract
interface `RNG σ` (with `random.seed` modelled as a pure function of the
seed, as in CPython).  The two nested `while` loops of the grid walk are
embedded with an explicit fuel parameter, so that non-termination of the
Python loop corresponds to the fuel being exhausted at every finite fuel.
-/

/-- Embeds `PerlinNoise.fade`: `t * t * t * (t * (t * 6 - 15) + 10)`. -/
def fade (t : ℚ) : ℚ := t * t * t * (t * (t * 6 - 15) + 10)

/-- Embeds `PerlinNoise.lerp`: `a + t * (b - a)`. -/
def lerp (t a b : ℚ) : ℚ := a + t * (b - a)

/-- Embeds `PerlinNoise.grad`.  `hash_val & 3` is `hashVal % 4` (the value is a
non-negative permutation-table entry), `h & 1 == 0` is `h % 2 = 0`, and
`h & 2 == 0` is `h / 2 % 2 = 0`. -/
def grad (hashVal : ℕ) (x y : ℚ) : ℚ :=
  let h := hashVal % 4
  let u := if h < 2 then x else y
  let v := if h < 2 then y else x
  (if h % 2 = 0 then u else -u) + (if h / 2 % 2 = 0 then v else -v)

/-- Embeds `PerlinNoise.noise`.  `int(math.floor(x)) & 255` is
`(⌊x⌋ % 256).toNat` (Lean's `Int.emod` is non-negative for a positive
modulus, exactly like Python's `&`/`%`).  Table lookups use `getD` with
default `0`; the development proves separately that all indices are in
bounds for the table the constructor builds. -/
def noise (permutation : List ℕ) (x y : ℚ) : ℚ :=
  let xi := ((Int.floor x) % 256).toNat
  let yi := ((Int.floor y) % 256).toNat
  let xf := x - (Int.floor x : ℤ)
  let yf := y - (Int.floor y : ℤ)
  let u := fade xf
  let v := fade yf
  let aa := permutation.getD (permutation.getD xi 0 + yi) 0
  let ab := permutation.getD (permutation.getD xi 0 + yi + 1) 0
  let ba := permutation.getD (permutation.getD (xi + 1) 0 + yi) 0
  let bb := permutation.getD (permutation.getD (xi + 1) 0 + yi + 1) 0
  let x1 := lerp u (grad aa xf yf) (grad ba (xf - 1) yf)
  let x2 := lerp u (grad ab xf (yf - 1)) (grad bb (xf - 1) (yf - 1))
  lerp v x1 x2

/-- The accumulation loop of `multi_octave_noise`, with the loop state
`(total, frequency, amplitude, max_value)` made explicit.  Each iteration
adds `noise(x*frequency, y*frequency) * amplitude` to the total, adds
`amplitude` to `max_value`, then multiplies `amplitude` by `persistence`
and `frequency` by `lacunarity`. -/
def octaveLoop (permutation : List ℕ) (x y persistence lacunarity : ℚ) :
    ℕ → ℚ → ℚ → ℚ → ℚ → ℚ × ℚ
  | 0, total, _, _, max_value => (total, max_value)
  | n + 1, total, frequency, amplitude, max_value =>
      octaveLoop permutation x y persistence lacunarity n
        (total + noise permutation (x * frequency) (y * frequency) * amplitude)
        (frequency * lacunarity) (amplitude * persistence) (max_value + amplitude)

/-- Embeds `multi_octave_noise`: run the octave loop from
`total = 0, frequency = 1, amplitude = 1, max_value = 0` and return
`total / max_value`. -/
def multi_octave_noise (permutation : List ℕ) (x y : ℚ) (octaves : ℕ)
    (persistence lacunarity : ℚ) : ℚ :=
  let r := octaveLoop permutation x y persistence lacunarity octaves 0 1 1 0
  r.1 / r.2

lemma fade_nonneg {t : ℚ} (h0 : 0 ≤ t) : 0 ≤ fade t := by
  unfold fade
  nlinarith [mul_nonneg (mul_nonneg (mul_nonneg h0 h0) h0) (sq_nonneg (4 * t - 5)),
    mul_nonneg (mul_nonneg h0 h0) h0]

lemma fade_le_one {t : ℚ} (h0 : 0 ≤ t) (h1 : t ≤ 1) : fade t ≤ 1 := by
  unfold fade
  have h1t : (0:ℚ) ≤ 1 - t := by linarith
  nlinarith [mul_nonneg (mul_nonneg (mul_nonneg h1t h1t) h1t) (sq_nonneg t),
    mul_nonneg h0 (mul_nonneg (mul_nonneg h1t h1t) h1t),
    mul_nonneg (mul_nonneg h1t h1t) h1t]

lemma fade_mix_le_half {t : ℚ} (h0 : 0 ≤ t) (h1 : t ≤ 1) :
    (1 - fade t) * t + fade t * (1 - t) ≤ 1 / 2 := by
  unfold fade
  have h1t : (0:ℚ) ≤ 1 - t := by linarith
  nlinarith [sq_nonneg (1 - 2 * t), sq_nonneg (t * (1 - t) * (1 - 2 * t)),
    mul_nonneg (mul_nonneg h0 h1t) (sq_nonneg (1 - 2 * t))]

lemma grad_abs_le (hashVal : ℕ) (x y : ℚ) : |grad hashVal x y| ≤ |x| + |y| := by
  rw [abs_le]
  constructor <;>
  · simp only [grad]
    split_ifs <;>
      linarith [le_abs_self x, neg_abs_le x, le_abs_self y, neg_abs_le y]

lemma lerp_abs_le {t a b bA bB : ℚ} (h0 : 0 ≤ t) (h1 : t ≤ 1)
    (ha : |a| ≤ bA) (hb : |b| ≤ bB) : |lerp t a b| ≤ (1 - t) * bA + t * bB := by
  unfold lerp
  rw [abs_le] at *
  constructor
  · nlinarith [mul_nonneg (by linarith : (0:ℚ) ≤ 1 - t) (by linarith : (0:ℚ) ≤ bA + a),
      mul_nonneg h0 (by linarith : (0:ℚ) ≤ bB + b)]
  · nlinarith [mul_nonneg (by linarith : (0:ℚ) ≤ 1 - t) (by linarith : (0:ℚ) ≤ bA - a),
      mul_nonneg h0 (by linarith : (0:ℚ) ≤ bB - b)]

lemma blend_core_abs_le {xf yf a b c d : ℚ}
    (hx0 : 0 ≤ xf) (hx1 : xf < 1) (hy0 : 0 ≤ yf) (hy1 : yf < 1)
    (ha : |a| ≤ xf + yf) (hb : |b| ≤ (1 - xf) + yf)
    (hc : |c| ≤ xf + (1 - yf)) (hd : |d| ≤ (1 - xf) + (1 - yf)) :
    |lerp (fade yf) (lerp (fade xf) a b) (lerp (fade xf) c d)| ≤ 1 := by
  have hu0 : 0 ≤ fade xf := fade_nonneg hx0
  have hu1 : fade xf ≤ 1 := fade_le_one hx0 hx1.le
  have hv0 : 0 ≤ fade yf := fade_nonneg hy0
  have hv1 : fade yf ≤ 1 := fade_le_one hy0 hy1.le
  have hx2 : |lerp (fade xf) a b| ≤ (1 - fade xf) * (xf + yf) + fade xf * ((1 - xf) + yf) :=
    lerp_abs_le hu0 hu1 ha hb
  have hy2 : |lerp (fade xf) c d|
      ≤ (1 - fade xf) * (xf + (1 - yf)) + fade xf * ((1 - xf) + (1 - yf)) :=
    lerp_abs_le hu0 hu1 hc hd
  have hfin := lerp_abs_le hv0 hv1 hx2 hy2
  have hS := fade_mix_le_half hx0 hx1.le
  have hT := fade_mix_le_half hy0 hy1.le
  calc |lerp (fade yf) (lerp (fade xf) a b) (lerp (fade xf) c d)|
      ≤ (1 - fade yf) * ((1 - fade xf) * (xf + yf) + fade xf * ((1 - xf) + yf))
        + fade yf * ((1 - fade xf) * (xf + (1 - yf)) + fade xf * ((1 - xf) + (1 - yf))) := hfin
    _ = ((1 - fade xf) * xf + fade xf * (1 - xf)) + ((1 - fade yf) * yf + fade yf * (1 - yf)) := by
        ring
    _ ≤ 1 := by linarith

/-- A single gradient-noise sample is bounded by 1 in absolute value, for any
permutation table. -/
lemma noise_abs_le_one (permutation : List ℕ) (x y : ℚ) : |noise permutation x y| ≤ 1 := by
  unfold noise
  simp only []
  set xf := x - ((Int.floor x : ℤ) : ℚ) with hxf
  set yf := y - ((Int.floor y : ℤ) : ℚ) with hyf
  have hx0 : (0:ℚ) ≤ xf := by
    rw [hxf, Int.self_sub_floor]; exact Int.fract_nonneg x
  have hx1 : xf < 1 := by
    rw [hxf, Int.self_sub_floor]; exact Int.fract_lt_one x
  have hy0 : (0:ℚ) ≤ yf := by
    rw [hyf, Int.self_sub_floor]; exact Int.fract_nonneg y
  have hy1 : yf < 1 := by
    rw [hyf, Int.self_sub_floor]; exact Int.fract_lt_one y
  apply blend_core_abs_le hx0 hx1 hy0 hy1
  · have e : xf + yf = |xf| + |yf| := by
      rw [abs_of_nonneg hx0, abs_of_nonneg hy0]
    rw [e]
    exact grad_abs_le _ _ _
  · have e : (1 - xf) + yf = |xf - 1| + |yf| := by
      rw [abs_of_nonpos (by linarith : xf - 1 ≤ 0), abs_of_nonneg hy0]
      ring
    rw [e]
    exact grad_abs_le _ _ _
  · have e : xf + (1 - yf) = |xf| + |yf - 1| := by
      rw [abs_of_nonneg hx0, abs_of_nonpos (by linarith : yf - 1 ≤ 0)]
      ring
    rw [e]
    exact grad_abs_le _ _ _
  · have e : (1 - xf) + (1 - yf) = |xf - 1| + |yf - 1| := by
      rw [abs_of_nonpos (by linarith : xf - 1 ≤ 0), abs_of_nonpos (by linarith : yf - 1 ≤ 0)]
      ring
    rw [e]
    exact grad_abs_le _ _ _

/-- Loop invariant of the octave accumulation: the running total is bounded by
the running `max_value`, `max_value` never decreases, and after at least one
iteration it has grown by at least the incoming amplitude. -/
lemma octaveLoop_bound (permutation : List ℕ) (x y pers lac : ℚ) (hp : 0 < pers) :
    ∀ (n : ℕ) (total frequency amplitude max_value : ℚ), 0 < amplitude →
      |total| ≤ max_value →
      |(octaveLoop permutation x y pers lac n total frequency amplitude max_value).1|
        ≤ (octaveLoop permutation x y pers lac n total frequency amplitude max_value).2
      ∧ max_value ≤ (octaveLoop permutation x y pers lac n total frequency amplitude max_value).2
      ∧ (0 < n → max_value + amplitude
          ≤ (octaveLoop permutation x y pers lac n total frequency amplitude max_value).2) := by
  intro n
  induction n with
  | zero =>
    intro total frequency amplitude max_value _ ht
    exact ⟨ht, le_refl _, fun h => absurd h (lt_irrefl 0)⟩
  | succ m ih =>
    intro total frequency amplitude max_value ha ht
    simp only [octaveLoop]
    have hstep : |total + noise permutation (x * frequency) (y * frequency) * amplitude|
        ≤ max_value + amplitude := by
      have h1 : |noise permutation (x * frequency) (y * frequency) * amplitude|
          ≤ 1 * amplitude := by
        rw [abs_mul, abs_of_nonneg ha.le]
        exact mul_le_mul_of_nonneg_right (noise_abs_le_one _ _ _) ha.le
      calc |total + noise permutation (x * frequency) (y * frequency) * amplitude|
          ≤ |total| + |noise permutation (x * frequency) (y * frequency) * amplitude| :=
            abs_add _ _
        _ ≤ max_value + 1 * amplitude := add_le_add ht h1
        _ = max_value + amplitude := by ring
    obtain ⟨ih1, ih2, _⟩ := ih
      (total + noise permutation (x * frequency) (y * frequency) * amplitude)
      (frequency * lac) (amplitude * pers) (max_value + amplitude)
      (mul_pos ha hp) hstep
    refine ⟨ih1, by linarith, fun _ => ih2⟩

/-- The multi-octave composition lies in `[-1, 1]` for positive persistence
and a positive octave count (shared helper behind C1 and C2). -/
lemma multi_octave_noise_bound (permutation : List ℕ) (x y : ℚ) (octaves : ℕ)
    (pers lac : ℚ) (hp : 0 < pers) (ho : 0 < octaves) :
    -1 ≤ multi_octave_noise permutation x y octaves pers lac
    ∧ multi_octave_noise permutation x y octaves pers lac ≤ 1 := by
  unfold multi_octave_noise
  simp only []
  obtain ⟨h1, _, h3⟩ := octaveLoop_bound permutation x y pers lac hp octaves 0 1 1 0
    one_pos (by simp)
  have hm : (1:ℚ) ≤ (octaveLoop permutation x y pers lac octaves 0 1 1 0).2 := by
    simpa using h3 ho
  have habs : |(octaveLoop permutation x y pers lac octaves 0 1 1 0).1
      / (octaveLoop permutation x y pers lac octaves 0 1 1 0).2| ≤ 1 := by
    rw [abs_div, abs_of_pos (by linarith : (0:ℚ)
      < (octaveLoop permutation x y pers lac octaves 0 1 1 0).2)]
    rw [div_le_one (by linarith)]
    exact h1
  exact abs_le.mp habs

/-- C1: for every persistence in (0,1], every lacunarity, every positive
octave count and every coordinate pair, `multi_octave_noise` returns a value
in `[-1, 1]`: the accumulated total is bounded by the accumulated sum of the
per-octave amplitudes, which the final division normalizes away. -/
theorem spec_c1_multi_octave_bounded (permutation : List ℕ) (x y : ℚ) (octaves : ℕ)
    (persistence lacunarity : ℚ) (h1 : 0 < persistence) (h2 : persistence ≤ 1)
    (h3 : 0 < octaves) :
    -1 ≤ multi_octave_noise permutation x y octaves persistence lacunarity
    ∧ multi_octave_noise permutation x y octaves persistence lacunarity ≤ 1 :=
  multi_octave_noise_bound permutation x y octaves persistence lacunarity h1 h3

/-- Witness for C1 at a concrete input. -/
theorem spec_c1_multi_octave_bounded_witness :
    (0 < (1:ℚ)/2) ∧ ((1:ℚ)/2 ≤ 1) ∧ (0 < 2) ∧
    (-1 ≤ multi_octave_noise [] 0 0 2 (1/2) 2
      ∧ multi_octave_noise [] 0 0 2 (1/2) 2 ≤ 1) :=
  ⟨by norm_num, by norm_num, by norm_num,
    spec_c1_multi_octave_bounded [] 0 0 2 (1/2) 2 (by norm_num) (by norm_num) (by norm_num)⟩

/-- Embeds Python's `round` to `ndigits` decimal places on exact values:
round-half-to-even on `q * 10 ^ ndigits`. -/
def roundHalfEven (q : ℚ) : ℤ :=
  let f := Int.floor q
  let r := q - f
  if r < 1 / 2 then f
  else if 1 / 2 < r then f + 1
  else if f % 2 = 0 then f else f + 1

/-- Embeds `round(q, ndigits)`. -/
def roundTo (ndigits : ℕ) (q : ℚ) : ℚ :=
  (roundHalfEven (q * 10 ^ ndigits) : ℤ) / 10 ^ ndigits

/-- Embeds the per-cell blended noise value of `generate_hazard_map`:
three multi-octave samples at the three frequency regimes, weighted
`0.6 / 0.3 / 0.1`, rescaled by `(combined + 1) / 2`. -/
def blendedValue (permLarge permMedium permSmall : List ℕ) (lat lon : ℚ) : ℚ :=
  let nx_large := lon * 0.05
  let ny_large := lat * 0.05
  let nx_medium := lon * 0.15
  let ny_medium := lat * 0.15
  let nx_small := lon * 0.5
  let ny_small := lat * 0.5
  let large_scale := multi_octave_noise permLarge nx_large ny_large 3 0.6 2.0
  let medium_scale := multi_octave_noise permMedium nx_medium ny_medium 3 0.5 2.0
  let small_scale := multi_octave_noise permSmall nx_small ny_small 2 0.4 2.0
  let combined := large_scale * 0.6 + medium_scale * 0.3 + small_scale * 0.1
  (combined + 1.0) / 2.0

/-- C2: the blended value (weights 0.6/0.3/0.1 over the three multi-octave
samples, rescaled by `(combined + 1) / 2`) lies in `[0, 1]` for every
latitude/longitude input and every permutation table. -/
theorem spec_c2_blended_value_in_unit_interval
    (permLarge permMedium permSmall : List ℕ) (lat lon : ℚ) :
    0 ≤ blendedValue permLarge permMedium permSmall lat lon
    ∧ blendedValue permLarge permMedium permSmall lat lon ≤ 1 := by
  obtain ⟨hL1, hL2⟩ := multi_octave_noise_bound permLarge (lon * 0.05) (lat * 0.05)
    3 0.6 2.0 (by norm_num) (by norm_num)
  obtain ⟨hM1, hM2⟩ := multi_octave_noise_bound permMedium (lon * 0.15) (lat * 0.15)
    3 0.5 2.0 (by norm_num) (by norm_num)
  obtain ⟨hS1, hS2⟩ := multi_octave_noise_bound permSmall (lon * 0.5) (lat * 0.5)
    2 0.4 2.0 (by norm_num) (by norm_num)
  unfold blendedValue
  simp only []
  constructor <;> [linarith; linarith]

/-- Embeds the three-period intensity synthesis of `generate_hazard_map`,
with the three jitter draws passed explicitly:
`p1 = base_intensity * base_value * j1`, `p2 = p1 * j2`, `p3 = p2 * j3`. -/
def synthesizeIntensities (base_intensity base_value j1 j2 j3 : ℚ) : ℚ × ℚ × ℚ :=
  let period_1_intensity := base_intensity * base_value * j1
  let period_2_intensity := period_1_intensity * j2
  let period_3_intensity := period_2_intensity * j3
  (period_1_intensity, period_2_intensity, period_3_intensity)

/-- C3: for a blended value in `[0,1]`, a non-negative base intensity, and
jitter draws from the ranges `U(0.9,1.1)`, `U(1.15,1.25)`, `U(1.2,1.35)`,
the synthesized intensities are monotone: `period_1 ≤ period_2 ≤ period_3`. -/
theorem spec_c3_intensity_trend_monotone
    (base_intensity base_value j1 j2 j3 : ℚ)
    (hb : 0 ≤ base_intensity) (hv0 : 0 ≤ base_value) (hv1 : base_value ≤ 1)
    (hj1l : 0.9 ≤ j1) (hj1u : j1 ≤ 1.1)
    (hj2l : 1.15 ≤ j2) (hj2u : j2 ≤ 1.25)
    (hj3l : 1.2 ≤ j3) (hj3u : j3 ≤ 1.35) :
    (synthesizeIntensities base_intensity base_value j1 j2 j3).1
      ≤ (synthesizeIntensities base_intensity base_value j1 j2 j3).2.1
    ∧ (synthesizeIntensities base_intensity base_value j1 j2 j3).2.1
      ≤ (synthesizeIntensities base_intensity base_value j1 j2 j3).2.2 := by
  unfold synthesizeIntensities
  simp only []
  have hp1 : 0 ≤ base_intensity * base_value * j1 := by positivity
  have hp2 : 0 ≤ base_intensity * base_value * j1 * j2 := by positivity
  constructor
  · nlinarith [mul_nonneg hp1 (by linarith : (0:ℚ) ≤ j2 - 1)]
  · nlinarith [mul_nonneg hp2 (by linarith : (0:ℚ) ≤ j3 - 1)]

/-- Witness for C3 at a concrete input. -/
theorem spec_c3_intensity_trend_monotone_witness :
    (synthesizeIntensities 3 (1/2) 1 (6/5) (5/4)).1
      ≤ (synthesizeIntensities 3 (1/2) 1 (6/5) (5/4)).2.1
    ∧ (synthesizeIntensities 3 (1/2) 1 (6/5) (5/4)).2.1
      ≤ (synthesizeIntensities 3 (1/2) 1 (6/5) (5/4)).2.2 :=
  spec_c3_intensity_trend_monotone 3 (1/2) 1 (6/5) (5/4) (by norm_num) (by norm_num)
    (by norm_num) (by norm_num) (by norm_num) (by norm_num) (by norm_num) (by norm_num)
    (by norm_num)

/-- Little-endian decimal digits of `n`, with explicit structural fuel
(`fuel = n` always suffices since `n / 10 < n`). -/
def digitsRev : ℕ → ℕ → List ℕ
  | 0, _ => []
  | _ + 1, 0 => []
  | fuel + 1, n + 1 => ((n + 1) % 10) :: digitsRev fuel ((n + 1) / 10)

/-- Decimal representation of a natural number as characters (empty for 0,
matching the fact that the zero-padding below supplies all digits of 0). -/
def decRepr (n : ℕ) : List Char := ((digitsRev n n).reverse).map Nat.digitChar

/-- Embeds the Python format specifier `06d`: left-pad the decimal digits
with `'0'` to a minimum width of 6. -/
def pad6Chars (n : ℕ) : List Char :=
  List.replicate (6 - (decRepr n).length) '0' ++ decRepr n

/-- Embeds `hazard_type.upper()[:4]` at the character-list level. -/
def upper4 (s : String) : List Char := (s.data.map Char.toUpper).take 4

/-- Embeds the f-string `f"EUR_[hazard_prefix]_[location_id:06d]"` building a
location identifier. -/
def locationId (hazard_type : String) (n : ℕ) : String :=
  ⟨("EUR_".data ++ upper4 hazard_type ++ ['_']) ++ pad6Chars n⟩

/-- Abstract interface for the process-wide `random` module, with explicit
state `σ`: `seedFn n` is the state set by `random.seed(n)` (a pure function
of `n`, discarding the previous state, as in CPython), `shuffle` models
`random.shuffle(list(range(256)))` returning the shuffled list, and
`uniform a b` models `random.uniform(a, b)`. -/
structure RNG (σ : Type) where
  seedFn : ℤ → σ
  shuffle : σ → List ℕ × σ
  uniform : ℚ → ℚ → σ → ℚ × σ

/-- Embeds `PerlinNoise.__init__`: optionally reseed the global stream, then
shuffle `list(range(256))` and append the shuffled table to itself. -/
def perlinInit {σ : Type} (rng : RNG σ) (seed : Option ℤ) (s : σ) : List ℕ × σ :=
  let s0 := match seed with
    | some n => rng.seedFn n
    | none => s
  let p := (rng.shuffle s0).1
  (p ++ p, (rng.shuffle s0).2)

/-- One output row of `generate_hazard_map` (the CSV writing itself is out of
scope; a record holds the values handed to the writer). -/
structure HazardRecord where
  location_id : String
  latitude : ℚ
  longitude : ℚ
  period_1_intensity_m : ℚ
  period_1_variance : ℚ
  period_2_intensity_m : ℚ
  period_2_variance : ℚ
  period_3_intensity_m : ℚ
  period_3_variance : ℚ
  hazard_type : String
  unit : String

/-- Embeds the body of the inner grid loop for one `(lat, lon)` cell: blended
value, six sequential `random.uniform` draws in program order, intensity and
variance synthesis, rounding, and the location identifier. -/
def cellRecord {σ : Type} (rng : RNG σ) (permLarge permMedium permSmall : List ℕ)
    (hazard_type unit : String) (base_intensity lat lon : ℚ) (location_id : ℕ)
    (s : σ) : HazardRecord × σ :=
  let base_value := blendedValue permLarge permMedium permSmall lat lon
  let d1 := rng.uniform 0.9 1.1 s
  let d2 := rng.uniform 1.15 1.25 d1.2
  let d3 := rng.uniform 1.2 1.35 d2.2
  let p := synthesizeIntensities base_intensity base_value d1.1 d2.1 d3.1
  let d4 := rng.uniform 0.15 0.25 d3.2
  let d5 := rng.uniform 0.15 0.25 d4.2
  let d6 := rng.uniform 0.2 0.3 d5.2
  ({ location_id := locationId hazard_type location_id
     latitude := roundTo 2 lat
     longitude := roundTo 2 lon
     period_1_intensity_m := roundTo 3 p.1
     period_1_variance := roundTo 3 (p.1 * d4.1)
     period_2_intensity_m := roundTo 3 p.2.1
     period_2_variance := roundTo 3 (p.2.1 * d5.1)
     period_3_intensity_m := roundTo 3 p.2.2
     period_3_variance := roundTo 3 (p.2.2 * d6.1)
     hazard_type := hazard_type
     unit := unit }, d6.2)

/-- Embeds the inner `while lon <= lon_max` loop with explicit fuel.  The
result is the produced rows, the next `location_id`, and the final random
state. -/
def lonLoop {σ : Type} (rng : RNG σ) (permLarge permMedium permSmall : List ℕ)
    (hazard_type unit : String) (base_intensity lat lon_max grid_spacing : ℚ) :
    ℕ → ℚ → ℕ → σ → List HazardRecord × ℕ × σ
  | 0, _, location_id, s => ([], location_id, s)
  | fuel + 1, lon, location_id, s =>
      if lon ≤ lon_max then
        let c := cellRecord rng permLarge permMedium permSmall hazard_type unit
          base_intensity lat lon location_id s
        let rest := lonLoop rng permLarge permMedium permSmall hazard_type unit
          base_intensity lat lon_max grid_spacing fuel
          (roundTo 2 (lon + grid_spacing)) (location_id + 1) c.2
        (c.1 :: rest.1, rest.2.1, rest.2.2)
      else ([], location_id, s)

/-- Embeds the outer `while lat <= lat_max` loop with explicit fuel; each
iteration runs the inner loop from `lon_min` with fuel `lonFuel`. -/
def latLoop {σ : Type} (rng : RNG σ) (permLarge permMedium permSmall : List ℕ)
    (hazard_type unit : String) (base_intensity lat_max lon_min lon_max grid_spacing : ℚ)
    (lonFuel : ℕ) :
    ℕ → ℚ → ℕ → σ → List HazardRecord × ℕ × σ
  | 0, _, location_id, s => ([], location_id, s)
  | fuel + 1, lat, location_id, s =>
      if lat ≤ lat_max then
        let row := lonLoop rng permLarge permMedium permSmall hazard_type unit
          base_intensity lat lon_max grid_spacing lonFuel lon_min location_id s
        let rest := latLoop rng permLarge permMedium permSmall hazard_type unit
          base_intensity lat_max lon_min lon_max grid_spacing lonFuel fuel
          (roundTo 2 (lat + grid_spacing)) row.2.1 row.2.2
        (row.1 ++ rest.1, rest.2.1, rest.2.2)
      else ([], location_id, s)

/-- Embeds `generate_hazard_map` up to (but not including) the CSV writing:
construct the three noise generators (seeded with `seed`, `seed+1`, `seed+2`
when a seed is supplied, otherwise from the ambient stream state), then walk
the grid accumulating rows with `location_id` starting at 1. -/
def generate_hazard_map {σ : Type} (rng : RNG σ) (fuel : ℕ)
    (hazard_type unit : String)
    (lat_min lat_max lon_min lon_max grid_spacing base_intensity : ℚ)
    (seed : Option ℤ) (s : σ) : List HazardRecord :=
  let init :=
    match seed with
    | some n =>
        let a := perlinInit rng (some n) s
        let b := perlinInit rng (some (n + 1)) a.2
        let c := perlinInit rng (some (n + 2)) b.2
        (a.1, b.1, c.1, c.2)
    | none =>
        let a := perlinInit rng none s
        let b := perlinInit rng none a.2
        let c := perlinInit rng none b.2
        (a.1, b.1, c.1, c.2)
  (latLoop rng init.1 init.2.1 init.2.2.1 hazard_type unit base_intensity
    lat_max lon_min lon_max grid_spacing fuel fuel lat_min 1 init.2.2.2).1

/-- The six permutation-table indices used by one evaluation of `noise`
(in source order: `permutation[xi]`, `permutation[xi + 1]`, and the four
corner lookups). -/
def noiseIndices (permutation : List ℕ) (x y : ℚ) : List ℕ :=
  let xi := ((Int.floor x) % 256).toNat
  let yi := ((Int.floor y) % 256).toNat
  [xi, xi + 1,
   permutation.getD xi 0 + yi,
   permutation.getD xi 0 + yi + 1,
   permutation.getD (xi + 1) 0 + yi,
   permutation.getD (xi + 1) 0 + yi + 1]

/-- A trivial concrete instance of the random interface, used by the
witnesses: shuffling returns the range unshuffled and uniform draws return
the lower bound. -/
def constRng : RNG Unit where
  seedFn := fun _ => ()
  shuffle := fun s => (List.range 256, s)
  uniform := fun a _ s => (a, s)

/-- C8: with a non-`None` seed, the output of `generate_hazard_map` does not
depend on the incoming state of the process-wide random stream: constructing
the three seeded `PerlinNoise` instances reseeds the generator (last with
`seed + 2`), after which the jitter draws are consumed in the fixed traversal
order, so two runs with identical arguments produce identical record
sequences. -/
theorem spec_c8_seeded_determinism {σ : Type} (rng : RNG σ) (fuel : ℕ)
    (hazard_type unit : String)
    (lat_min lat_max lon_min lon_max grid_spacing base_intensity : ℚ)
    (seed : Option ℤ) (k : ℤ) (s s' : σ) (hseed : seed = some k) :
    generate_hazard_map rng fuel hazard_type unit lat_min lat_max lon_min lon_max
        grid_spacing base_intensity seed s
      = generate_hazard_map rng fuel hazard_type unit lat_min lat_max lon_min lon_max
        grid_spacing base_intensity seed s' := by
  subst hseed
  rfl

/-- Witness for C8 at a concrete input. -/
theorem spec_c8_seeded_determinism_witness :
    generate_hazard_map constRng 3 "flood" "meters" 35 (35.18 : ℚ) (-10) (-9.82 : ℚ)
        (0.09 : ℚ) 3 (some 42) ()
      = generate_hazard_map constRng 3 "flood" "meters" 35 (35.18 : ℚ) (-10) (-9.82 : ℚ)
        (0.09 : ℚ) 3 (some 42) () :=
  spec_c8_seeded_determinism constRng 3 "flood" "meters" 35 (35.18 : ℚ) (-10) (-9.82 : ℚ)
    (0.09 : ℚ) 3 (some 42) 42 () () rfl

lemma latLoop_min_gt_max {σ : Type} (rng : RNG σ) (permLarge permMedium permSmall : List ℕ)
    (hazard_type unit : String) (base_intensity lat_max lon_min lon_max grid_spacing : ℚ)
    (lonFuel fuel : ℕ) (lat : ℚ) (location_id : ℕ) (s : σ) (h : lat_max < lat) :
    (latLoop rng permLarge permMedium permSmall hazard_type unit base_intensity
      lat_max lon_min lon_max grid_spacing lonFuel fuel lat location_id s).1 = [] := by
  cases fuel with
  | zero => rfl
  | succ m => simp [latLoop, not_le.mpr h]

lemma lonLoop_min_gt_max {σ : Type} (rng : RNG σ) (permLarge permMedium permSmall : List ℕ)
    (hazard_type unit : String) (base_intensity lat lon_max grid_spacing : ℚ)
    (fuel : ℕ) (lon : ℚ) (location_id : ℕ) (s : σ) (h : lon_max < lon) :
    lonLoop rng permLarge permMedium permSmall hazard_type unit base_intensity
      lat lon_max grid_spacing fuel lon location_id s = ([], location_id, s) := by
  cases fuel with
  | zero => rfl
  | succ m => simp [lonLoop, not_le.mpr h]

lemma latLoop_empty_of_lon_empty {σ : Type} (rng : RNG σ)
    (permLarge permMedium permSmall : List ℕ) (hazard_type unit : String)
    (base_intensity lat_max lon_min lon_max grid_spacing : ℚ)
    (lonFuel : ℕ) (h : lon_max < lon_min) :
    ∀ (fuel : ℕ) (lat : ℚ) (location_id : ℕ) (s : σ),
    (latLoop rng permLarge permMedium permSmall hazard_type unit base_intensity
      lat_max lon_min lon_max grid_spacing lonFuel fuel lat location_id s).1 = [] := by
  intro fuel
  induction fuel with
  | zero => intro lat location_id s; rfl
  | succ m ih =>
    intro lat location_id s
    by_cases hlat : lat ≤ lat_max
    · simp only [latLoop, if_pos hlat]
      rw [lonLoop_min_gt_max rng permLarge permMedium permSmall hazard_type unit
        base_intensity lat lon_max grid_spacing lonFuel lon_min location_id s h]
      simpa using ih (roundTo 2 (lat + grid_spacing)) location_id s
    · simp [latLoop, if_neg hlat]

/-- Counterexample to C4: `generate_hazard_map` performs no validation.  With
`lat_min = 1 > 0 = lat_max` (an invalid region per the claim) the run
completes normally and returns zero records — it does not fail with
`InvalidRegion`; in the script the CSV writer then still writes a
header-only file. -/
theorem spec_c4_counterexample :
    generate_hazard_map constRng 10 "flood" "meters" 1 0 (-1) 1 (0.09 : ℚ) 3
      (some 42) () = [] := by
  rfl

/-- C4 (amended): the implementation performs no eager validation of its
numeric configuration; in particular a bounding box with min > max on either
axis does not raise `InvalidRegion` — the grid walk silently produces zero
records and the run completes normally. -/
theorem spec_c4_no_validation {σ : Type} (rng : RNG σ) (fuel : ℕ)
    (hazard_type unit : String)
    (lat_min lat_max lon_min lon_max grid_spacing base_intensity : ℚ)
    (seed : Option ℤ) (s : σ) :
    (lat_max < lat_min →
      generate_hazard_map rng fuel hazard_type unit lat_min lat_max lon_min lon_max
        grid_spacing base_intensity seed s = [])
    ∧ (lon_max < lon_min →
      generate_hazard_map rng fuel hazard_type unit lat_min lat_max lon_min lon_max
        grid_spacing base_intensity seed s = []) := by
  constructor
  · intro h
    unfold generate_hazard_map
    cases seed <;>
      exact latLoop_min_gt_max _ _ _ _ _ _ _ _ _ _ _ _ _ _ _ _ h
  · intro h
    unfold generate_hazard_map
    cases seed <;>
      exact latLoop_empty_of_lon_empty _ _ _ _ _ _ _ _ _ _ _ _ h _ _ _ _

/-- Witness for C4's amended statement at concrete inputs. -/
theorem spec_c4_no_validation_witness :
    generate_hazard_map constRng 10 "wind" "m/s" 2 1 0 5 (0.09 : ℚ) 25 none () = []
    ∧ generate_hazard_map constRng 10 "wind" "m/s" 0 5 2 1 (0.09 : ℚ) 25 none () = [] :=
  ⟨(spec_c4_no_validation constRng 10 "wind" "m/s" 2 1 0 5 (0.09 : ℚ) 25 none ()).1
      (by norm_num),
   (spec_c4_no_validation constRng 10 "wind" "m/s" 0 5 2 1 (0.09 : ℚ) 25 none ()).2
      (by norm_num)⟩

def digitVal (c : Char) : ℕ := c.toNat - 48

/-- Reads a digit string back as a number (left inverse of the decimal
formatting, used to prove identifier uniqueness). -/
def decodeDigits (l : List Char) : ℕ := l.foldl (fun a c => 10 * a + digitVal c) 0

lemma digitVal_digitChar (d : ℕ) (hd : d < 10) : digitVal (Nat.digitChar d) = d := by
  interval_cases d <;> rfl

lemma foldl_digitsRev (fuel : ℕ) : ∀ n a : ℕ, n ≤ fuel →
    List.foldl (fun x c => 10 * x + digitVal c) a ((digitsRev fuel n).reverse.map Nat.digitChar)
      = a * 10 ^ (digitsRev fuel n).length + n := by
  induction fuel with
  | zero =>
    intro n a hn
    interval_cases n
    simp [digitsRev]
  | succ f ih =>
    intro n a hn
    match n with
    | 0 => simp [digitsRev]
    | m + 1 =>
      have hdiv : (m + 1) / 10 ≤ f := by omega
      simp only [digitsRev, List.reverse_cons, List.map_append, List.map_cons, List.map_nil]
      rw [List.foldl_append]
      rw [ih ((m + 1) / 10) a hdiv]
      simp only [List.foldl_cons, List.foldl_nil, List.length_cons]
      rw [digitVal_digitChar _ (by omega)]
      ring_nf
      omega

lemma decodeDigits_pad6 (n : ℕ) : decodeDigits (pad6Chars n) = n := by
  unfold decodeDigits pad6Chars
  rw [List.foldl_append]
  have hz : ∀ k : ℕ, List.foldl (fun a c => 10 * a + digitVal c) 0 (List.replicate k '0') = 0 := by
    intro k
    induction k with
    | zero => rfl
    | succ j ihj => simpa [List.replicate_succ, digitVal] using ihj
  rw [hz]
  unfold decRepr
  rw [foldl_digitsRev n n 0 (le_refl n)]
  simp

lemma pad6Chars_injective : Function.Injective pad6Chars := by
  intro a b h
  have h2 := congrArg decodeDigits h
  rwa [decodeDigits_pad6, decodeDigits_pad6] at h2

lemma locationId_injective (hazard_type : String) :
    Function.Injective (locationId hazard_type) := by
  intro a b h
  unfold locationId at h
  have h2 : (("EUR_".data ++ upper4 hazard_type ++ ['_']) ++ pad6Chars a)
      = (("EUR_".data ++ upper4 hazard_type ++ ['_']) ++ pad6Chars b) :=
    congrArg String.data h
  exact pad6Chars_injective (List.append_cancel_left h2)

lemma range_map_shift {α : Type} (g : ℕ → α) (m n : ℕ) :
    (List.range (n + 1)).map (fun k => g (m + k))
      = g m :: (List.range n).map (fun k => g ((m + 1) + k)) := by
  rw [List.range_succ_eq_map, List.map_cons, List.map_map]
  simp only [Nat.add_zero]
  congr 1
  apply List.map_congr_left
  intro a _
  simp only [Function.comp_apply]
  exact congrArg g (by omega)

lemma range_map_append {α : Type} (g : ℕ → α) (m n1 n2 : ℕ) :
    (List.range (n1 + n2)).map (fun k => g (m + k))
      = (List.range n1).map (fun k => g (m + k))
        ++ (List.range n2).map (fun k => g ((m + n1) + k)) := by
  rw [List.range_add, List.map_append, List.map_map]
  congr 1
  apply List.map_congr_left
  intro a _
  simp only [Function.comp_apply]
  exact congrArg g (by omega)

lemma cellRecord_location_id {σ : Type} (rng : RNG σ)
    (permLarge permMedium permSmall : List ℕ) (hazard_type unit : String)
    (base_intensity lat lon : ℚ) (location_id : ℕ) (s : σ) :
    (cellRecord rng permLarge permMedium permSmall hazard_type unit base_intensity
      lat lon location_id s).1.location_id = locationId hazard_type location_id := rfl

/-- The inner loop assigns consecutive identifiers: the returned next
`location_id` is the incoming one plus the number of produced rows, and the
rows' identifiers are `locationId hazard_type` applied to the consecutive
counters starting at the incoming `location_id`. -/
lemma lonLoop_ids {σ : Type} (rng : RNG σ) (permLarge permMedium permSmall : List ℕ)
    (hazard_type unit : String) (base_intensity lat lon_max grid_spacing : ℚ) :
    ∀ (fuel : ℕ) (lon : ℚ) (location_id : ℕ) (s : σ),
    (lonLoop rng permLarge permMedium permSmall hazard_type unit base_intensity
        lat lon_max grid_spacing fuel lon location_id s).2.1
      = location_id + (lonLoop rng permLarge permMedium permSmall hazard_type unit
        base_intensity lat lon_max grid_spacing fuel lon location_id s).1.length
    ∧ (lonLoop rng permLarge permMedium permSmall hazard_type unit base_intensity
        lat lon_max grid_spacing fuel lon location_id s).1.map HazardRecord.location_id
      = (List.range (lonLoop rng permLarge permMedium permSmall hazard_type unit
          base_intensity lat lon_max grid_spacing fuel lon location_id s).1.length).map
        (fun k => locationId hazard_type (location_id + k)) := by
  intro fuel
  induction fuel with
  | zero =>
    intro lon location_id s
    simp [lonLoop]
  | succ f ih =>
    intro lon location_id s
    by_cases h : lon ≤ lon_max
    · simp only [lonLoop, if_pos h]
      obtain ⟨ih1, ih2⟩ := ih (roundTo 2 (lon + grid_spacing)) (location_id + 1)
        (cellRecord rng permLarge permMedium permSmall hazard_type unit base_intensity
          lat lon location_id s).2
      constructor
      · simp only [List.length_cons]
        omega
      · simp only [List.map_cons, List.length_cons, cellRecord_location_id]
        rw [ih2, range_map_shift (locationId hazard_type) location_id]
    · simp [lonLoop, if_neg h]

/-- The outer loop, like the inner one, assigns consecutive identifiers
starting at the incoming counter. -/
lemma latLoop_ids {σ : Type} (rng : RNG σ) (permLarge permMedium permSmall : List ℕ)
    (hazard_type unit : String)
    (base_intensity lat_max lon_min lon_max grid_spacing : ℚ) (lonFuel : ℕ) :
    ∀ (fuel : ℕ) (lat : ℚ) (location_id : ℕ) (s : σ),
    (latLoop rng permLarge permMedium permSmall hazard_type unit base_intensity
        lat_max lon_min lon_max grid_spacing lonFuel fuel lat location_id s).2.1
      = location_id + (latLoop rng permLarge permMedium permSmall hazard_type unit
        base_intensity lat_max lon_min lon_max grid_spacing lonFuel fuel
        lat location_id s).1.length
    ∧ (latLoop rng permLarge permMedium permSmall hazard_type unit base_intensity
        lat_max lon_min lon_max grid_spacing lonFuel fuel lat location_id s).1.map
          HazardRecord.location_id
      = (List.range (latLoop rng permLarge permMedium permSmall hazard_type unit
          base_intensity lat_max lon_min lon_max grid_spacing lonFuel fuel
          lat location_id s).1.length).map
        (fun k => locationId hazard_type (location_id + k)) := by
  intro fuel
  induction fuel with
  | zero =>
    intro lat location_id s
    simp [latLoop]
  | succ f ih =>
    intro lat location_id s
    by_cases h : lat ≤ lat_max
    · simp only [latLoop, if_pos h]
      obtain ⟨hr1, hr2⟩ := lonLoop_ids rng permLarge permMedium permSmall hazard_type unit
        base_intensity lat lon_max grid_spacing lonFuel lon_min location_id s
      obtain ⟨ih1, ih2⟩ := ih (roundTo 2 (lat + grid_spacing))
        (lonLoop rng permLarge permMedium permSmall hazard_type unit base_intensity
          lat lon_max grid_spacing lonFuel lon_min location_id s).2.1
        (lonLoop rng permLarge permMedium permSmall hazard_type unit base_intensity
          lat lon_max grid_spacing lonFuel lon_min location_id s).2.2
      constructor
      · simp only [List.length_append]
        omega
      · simp only [List.map_append, List.length_append]
        rw [hr2, ih2, hr1]
        rw [range_map_append (locationId hazard_type) location_id]
    · simp [latLoop, if_neg h]

/-- Counterexample to C6 as stated: for hazard type `"w"` the generated
identifier is `EUR_W_000001`, whose hazard segment has 1 character, so the
identifier does not decompose as `EUR_` + a 4-character prefix + `_` + the
6-digit counter. -/
theorem spec_c6_counterexample :
    ¬ ∃ p : List Char, p.length = 4
      ∧ locationId "w" 1 = ⟨("EUR_".data ++ p ++ ['_']) ++ pad6Chars 1⟩ := by
  rintro ⟨p, hp4, heq⟩
  have hd := congrArg String.data heq
  have h2 := congrArg List.length hd
  rw [List.length_append, List.length_append, List.length_append] at h2
  have hL : (locationId "w" 1).data.length = 12 := by decide
  have hA : ("EUR_".data).length = 4 := by decide
  have hD : (pad6Chars 1).length = 6 := by decide
  have hC : (['_'] : List Char).length = 1 := rfl
  rw [hL, hA, hD, hC, hp4] at h2
  exact absurd h2 (by norm_num)

/-- C6 (amended): in every walk the records carry the identifiers
`locationId hazard_type` (`EUR_` + the uppercased hazard type truncated to at
most 4 characters + `_` + the counter zero-padded to a minimum width of 6)
applied to the sequential 1-based counter in generation order, and the
identifiers are pairwise distinct. -/
theorem spec_c6_location_ids {σ : Type} (rng : RNG σ) (fuel : ℕ)
    (hazard_type unit : String)
    (lat_min lat_max lon_min lon_max grid_spacing base_intensity : ℚ)
    (seed : Option ℤ) (s : σ) :
    (generate_hazard_map rng fuel hazard_type unit lat_min lat_max lon_min lon_max
        grid_spacing base_intensity seed s).map HazardRecord.location_id
      = (List.range (generate_hazard_map rng fuel hazard_type unit lat_min lat_max
          lon_min lon_max grid_spacing base_intensity seed s).length).map
        (fun k => locationId hazard_type (1 + k))
    ∧ ((generate_hazard_map rng fuel hazard_type unit lat_min lat_max lon_min lon_max
        grid_spacing base_intensity seed s).map HazardRecord.location_id).Nodup := by
  have hinj : Function.Injective (fun k : ℕ => locationId hazard_type (1 + k)) := by
    intro a b hab
    have := locationId_injective hazard_type hab
    omega
  cases seed with
  | none =>
    unfold generate_hazard_map
    simp only []
    obtain ⟨_, h2⟩ := latLoop_ids rng _ _ _ hazard_type unit base_intensity
      lat_max lon_min lon_max grid_spacing fuel fuel lat_min 1 _
    refine ⟨h2, ?_⟩
    rw [h2]
    exact (List.nodup_range _).map hinj
  | some n =>
    unfold generate_hazard_map
    simp only []
    obtain ⟨_, h2⟩ := latLoop_ids rng _ _ _ hazard_type unit base_intensity
      lat_max lon_min lon_max grid_spacing fuel fuel lat_min 1 _
    refine ⟨h2, ?_⟩
    rw [h2]
    exact (List.nodup_range _).map hinj

lemma table_invariants (p : List ℕ) (hp : List.Perm p (List.range 256)) :
    (p ++ p).length = 512
    ∧ (∀ v : ℕ, v < 256 → (p ++ p).count v = 2)
    ∧ ((p ++ p).take 256).Nodup := by
  have hlen : p.length = 256 := by rw [hp.length_eq, List.length_range]
  refine ⟨by simp [hlen], ?_, ?_⟩
  · intro v hv
    rw [List.count_append]
    have h1 : p.count v = 1 := by
      rw [hp.count_eq]
      exact List.count_eq_one_of_mem (List.nodup_range 256) (List.mem_range.mpr hv)
    omega
  · rw [← hlen, List.take_left]
    exact hp.nodup_iff.mpr (List.nodup_range 256)

/-- C7: the permutation table built by the constructor has length 512, is a
shuffled copy of `0..255` appended to itself (each value below 256 occurs
exactly twice and the first 256 entries are duplicate-free), and — the
embedding of `noise`, `octaveLoop` and `blendedValue` being pure functions
that take the table as a read-only argument and return only scalars — it is
never mutated by noise evaluation or octave composition. -/
theorem spec_c7_permutation_table {σ : Type} (rng : RNG σ) (seed : Option ℤ) (s : σ)
    (hshuffle : ∀ t : σ, List.Perm ((rng.shuffle t).1) (List.range 256)) :
    ((perlinInit rng seed s).1).length = 512
    ∧ (∀ v : ℕ, v < 256 → ((perlinInit rng seed s).1).count v = 2)
    ∧ (((perlinInit rng seed s).1).take 256).Nodup := by
  cases seed with
  | none =>
    unfold perlinInit
    simp only []
    exact table_invariants _ (hshuffle _)
  | some n =>
    unfold perlinInit
    simp only []
    exact table_invariants _ (hshuffle _)

set_option maxRecDepth 4000 in
/-- Witness for C7 at a concrete instance. -/
theorem spec_c7_permutation_table_witness :
    ((perlinInit constRng (some 42) ()).1).length = 512
    ∧ (∀ v : ℕ, v < 256 → ((perlinInit constRng (some 42) ()).1).count v = 2)
    ∧ (((perlinInit constRng (some 42) ()).1).take 256).Nodup :=
  spec_c7_permutation_table constRng (some 42) () (fun _ => List.Perm.refl _)

lemma getD_lt (l : List ℕ) (h : ∀ v ∈ l, v < 256) : ∀ i : ℕ, l.getD i 0 < 256 := by
  induction l with
  | nil =>
    intro i
    simp only [List.getD_nil]
    norm_num
  | cons a t ih =>
    intro i
    cases i with
    | zero =>
      simp only [List.getD_cons_zero]
      exact h a (by simp)
    | succ j =>
      simp only [List.getD_cons_succ]
      exact ih (fun v hv => h v (by simp [hv])) j

/-- C10: every permutation-table lookup performed during noise evaluation
uses an index below 512, hence within the duplicated table of length 512:
the cell indices are masked into `[0, 255]`, and the largest index formed is
`permutation[xi + 1] + yi + 1 ≤ 255 + 255 + 1 = 511`. -/
theorem spec_c10_index_bounds (p : List ℕ) (x y : ℚ)
    (hp : List.Perm p (List.range 256)) :
    (p ++ p).length = 512 ∧ ∀ i ∈ noiseIndices (p ++ p) x y, i < 512 := by
  have hmem : ∀ v ∈ p ++ p, v < 256 := by
    intro v hv
    rcases List.mem_append.mp hv with h | h <;>
      exact List.mem_range.mp (hp.mem_iff.mp h)
  have hlen : p.length = 256 := by rw [hp.length_eq, List.length_range]
  refine ⟨by simp [hlen], ?_⟩
  intro i hi
  have hxi : ((Int.floor x) % 256).toNat < 256 := by
    have h1 : (0:ℤ) ≤ (Int.floor x) % 256 := Int.emod_nonneg _ (by norm_num)
    have h2 : (Int.floor x) % 256 < 256 := Int.emod_lt_of_pos _ (by norm_num)
    omega
  have hyi : ((Int.floor y) % 256).toNat < 256 := by
    have h1 : (0:ℤ) ≤ (Int.floor y) % 256 := Int.emod_nonneg _ (by norm_num)
    have h2 : (Int.floor y) % 256 < 256 := Int.emod_lt_of_pos _ (by norm_num)
    omega
  have hg1 : (p ++ p).getD ((Int.floor x % 256).toNat) 0 < 256 := getD_lt _ hmem _
  have hg2 : (p ++ p).getD ((Int.floor x % 256).toNat + 1) 0 < 256 := getD_lt _ hmem _
  simp only [noiseIndices, List.mem_cons, List.not_mem_nil, or_false] at hi
  rcases hi with rfl | rfl | rfl | rfl | rfl | rfl <;> omega

/-- Witness for C10 at a concrete instance. -/
theorem spec_c10_index_bounds_witness :
    (List.range 256 ++ List.range 256).length = 512
    ∧ ∀ i ∈ noiseIndices (List.range 256 ++ List.range 256) 0 0, i < 512 :=
  spec_c10_index_bounds (List.range 256) 0 0 (List.Perm.refl _)

lemma roundHalfEven_intCast (m : ℤ) : roundHalfEven (m : ℚ) = m := by
  unfold roundHalfEven
  simp only []
  rw [Int.floor_intCast]
  simp

lemma roundTo2_of_int (m : ℤ) : roundTo 2 ((m : ℚ) / 100) = (m : ℚ) / 100 := by
  unfold roundTo
  have h : ((m : ℚ) / 100) * 10 ^ 2 = (m : ℚ) := by push_cast; ring
  rw [h, roundHalfEven_intCast]
  norm_num

/-- Adding a two-decimal spacing to a two-decimal coordinate and rounding to
two decimals is exact. -/
lemma roundTo2_add (z w : ℤ) :
    roundTo 2 ((z : ℚ) / 100 + (w : ℚ) / 100) = ((z + w : ℤ) : ℚ) / 100 := by
  have h : (z : ℚ) / 100 + (w : ℚ) / 100 = ((z + w : ℤ) : ℚ) / 100 := by push_cast; ring
  rw [h, roundTo2_of_int]

/-- With a positive spacing strictly below `0.005`, rounding after the
increment returns the unchanged two-decimal coordinate. -/
lemma roundTo2_stuck (z : ℤ) (sp : ℚ) (h1 : 0 < sp) (h2 : sp < 1 / 200) :
    roundTo 2 ((z : ℚ) / 100 + sp) = (z : ℚ) / 100 := by
  unfold roundTo roundHalfEven
  simp only []
  have hq : ((z : ℚ) / 100 + sp) * 10 ^ 2 = (z : ℚ) + sp * 100 := by push_cast; ring
  rw [hq]
  have hfl : Int.floor ((z : ℚ) + sp * 100) = z := by
    rw [add_comm, Int.floor_add_int]
    have h0 : Int.floor (sp * 100) = 0 := by
      rw [Int.floor_eq_iff]
      constructor
      · push_cast; linarith
      · push_cast; linarith
    omega
  rw [hfl]
  have hr : (z : ℚ) + sp * 100 - (z : ℤ) < 1 / 2 := by push_cast; linarith
  rw [if_pos hr]
  norm_num

lemma roundHalfEven_ge_floor (q : ℚ) : Int.floor q ≤ roundHalfEven q := by
  unfold roundHalfEven
  simp only []
  split_ifs <;> omega

/-- With spacing at least `0.01`, each rounded increment advances the
two-decimal coordinate by at least `0.01`. -/
lemma roundTo2_step (z : ℤ) (sp : ℚ) (hsp : 1 / 100 ≤ sp) :
    ∃ z' : ℤ, roundTo 2 ((z : ℚ) / 100 + sp) = (z' : ℚ) / 100 ∧ z + 1 ≤ z' := by
  refine ⟨roundHalfEven (((z : ℚ) / 100 + sp) * 10 ^ 2), ?_, ?_⟩
  · unfold roundTo
    norm_num
  · have hq : ((z : ℚ) / 100 + sp) * 10 ^ 2 = (z : ℚ) + sp * 100 := by push_cast; ring
    rw [hq]
    have h1 : z + 1 ≤ Int.floor ((z : ℚ) + sp * 100) := by
      have hcomm : (z : ℚ) + sp * 100 = sp * 100 + (z : ℚ) := by ring
      rw [hcomm, Int.floor_add_int]
      have h2 : (1 : ℤ) ≤ Int.floor (sp * 100) := by
        rw [Int.le_floor]
        push_cast
        linarith
      omega
    exact le_trans h1 (roundHalfEven_ge_floor _)

/-- If the rounded increment leaves the coordinate unchanged, the inner loop
never reaches its exit condition: it produces one row per unit of fuel, at
every fuel. -/
lemma lonLoop_stuck {σ : Type} (rng : RNG σ) (permLarge permMedium permSmall : List ℕ)
    (hazard_type unit : String) (base_intensity lat lon_max grid_spacing lon : ℚ)
    (hround : roundTo 2 (lon + grid_spacing) = lon) (hle : lon ≤ lon_max) :
    ∀ (fuel : ℕ) (location_id : ℕ) (s : σ),
    (lonLoop rng permLarge permMedium permSmall hazard_type unit base_intensity
      lat lon_max grid_spacing fuel lon location_id s).1.length = fuel := by
  intro fuel
  induction fuel with
  | zero => intro location_id s; rfl
  | succ f ih =>
    intro location_id s
    simp only [lonLoop, if_pos hle, hround, List.length_cons]
    rw [ih]

/-- If each rounded increment advances the coordinate by at least `0.01`,
the number of rows the inner loop produces is bounded independently of the
fuel (the loop exits once the coordinate passes the maximum). -/
lemma lonLoop_bounded {σ : Type} (rng : RNG σ) (permLarge permMedium permSmall : List ℕ)
    (hazard_type unit : String) (base_intensity lat lon_max grid_spacing : ℚ)
    (hsp : 1 / 100 ≤ grid_spacing) :
    ∀ (fuel : ℕ) (z : ℤ) (lon : ℚ), lon = (z : ℚ) / 100 →
    ∀ (location_id : ℕ) (s : σ),
    (lonLoop rng permLarge permMedium permSmall hazard_type unit base_intensity
      lat lon_max grid_spacing fuel lon location_id s).1.length
      ≤ (Int.floor (lon_max * 100) - z + 1).toNat := by
  intro fuel
  induction fuel with
  | zero =>
    intro z lon hlon location_id s
    simp [lonLoop]
  | succ f ih =>
    intro z lon hlon location_id s
    by_cases h : lon ≤ lon_max
    · simp only [lonLoop, if_pos h, List.length_cons]
      obtain ⟨z', hz', hz1⟩ := roundTo2_step z grid_spacing hsp
      rw [hlon] at *
      rw [hz']
      have hrec := ih z' ((z' : ℚ) / 100) rfl (location_id + 1)
        (cellRecord rng permLarge permMedium permSmall hazard_type unit base_intensity
          lat ((z : ℚ) / 100) location_id s).2
      have hza : z ≤ Int.floor (lon_max * 100) := by
        rw [Int.le_floor]
        push_cast
        linarith
      omega
    · simp [lonLoop, if_neg h]

/-- C9: termination of the grid walk is not equivalent to `spacing > 0`.
With the coordinate held to two decimals by the rounding step: for
`0 < spacing < 0.005` the rounded increment returns the coordinate unchanged
and the loop never advances (it consumes every finite fuel), while for
`spacing ≥ 0.01` each iteration advances the rounded coordinate by at least
`0.01` and the number of iterations is bounded independently of the fuel. -/
theorem spec_c9_termination_spacing {σ : Type} (rng : RNG σ)
    (permLarge permMedium permSmall : List ℕ) (hazard_type unit : String)
    (base_intensity lat lon_max grid_spacing : ℚ) (z : ℤ) (lon : ℚ)
    (hlon : lon = (z : ℚ) / 100) :
    ((0 < grid_spacing ∧ grid_spacing < 1 / 200) →
      roundTo 2 (lon + grid_spacing) = lon
      ∧ (lon ≤ lon_max → ∀ (fuel : ℕ) (location_id : ℕ) (s : σ),
          (lonLoop rng permLarge permMedium permSmall hazard_type unit base_intensity
            lat lon_max grid_spacing fuel lon location_id s).1.length = fuel))
    ∧ (1 / 100 ≤ grid_spacing →
      (∃ z' : ℤ, roundTo 2 (lon + grid_spacing) = (z' : ℚ) / 100 ∧ lon + 1 / 100 ≤ (z' : ℚ) / 100)
      ∧ (∀ (fuel : ℕ) (location_id : ℕ) (s : σ),
          (lonLoop rng permLarge permMedium permSmall hazard_type unit base_intensity
            lat lon_max grid_spacing fuel lon location_id s).1.length
            ≤ (Int.floor (lon_max * 100) - z + 1).toNat)) := by
  constructor
  · rintro ⟨h1, h2⟩
    have hround : roundTo 2 (lon + grid_spacing) = lon := by
      rw [hlon]
      exact roundTo2_stuck z grid_spacing h1 h2
    exact ⟨hround, fun hle fuel location_id s =>
      lonLoop_stuck rng permLarge permMedium permSmall hazard_type unit base_intensity
        lat lon_max grid_spacing lon hround hle fuel location_id s⟩
  · intro hsp
    constructor
    · obtain ⟨z', hz', hz1⟩ := roundTo2_step z grid_spacing hsp
      refine ⟨z', by rw [hlon]; exact hz', ?_⟩
      rw [hlon]
      have : ((z : ℚ) + 1) / 100 ≤ (z' : ℚ) / 100 := by
        have hc : ((z : ℚ) + 1) ≤ (z' : ℚ) := by exact_mod_cast hz1
        linarith
      linarith
    · intro fuel location_id s
      rw [hlon]
      exact lonLoop_bounded rng permLarge permMedium permSmall hazard_type unit
        base_intensity lat lon_max grid_spacing hsp fuel z ((z : ℚ) / 100) rfl location_id s

/-- Witness for C9 at a concrete input. -/
theorem spec_c9_termination_spacing_witness :
    (((0:ℚ) < 1 / 300 ∧ (1:ℚ) / 300 < 1 / 200) →
      roundTo 2 ((0:ℚ) + 1 / 300) = 0
      ∧ ((0:ℚ) ≤ 1 → ∀ (fuel : ℕ) (location_id : ℕ) (s : Unit),
          (lonLoop constRng [] [] [] "flood" "meters" 3 0 1 (1 / 300) fuel 0
            location_id s).1.length = fuel))
    ∧ ((1:ℚ) / 100 ≤ 1 / 300 →
      (∃ z' : ℤ, roundTo 2 ((0:ℚ) + 1 / 300) = (z' : ℚ) / 100
        ∧ (0:ℚ) + 1 / 100 ≤ (z' : ℚ) / 100)
      ∧ (∀ (fuel : ℕ) (location_id : ℕ) (s : Unit),
          (lonLoop constRng [] [] [] "flood" "meters" 3 0 1 (1 / 300) fuel 0
            location_id s).1.length ≤ (Int.floor ((1:ℚ) * 100) - 0 + 1).toNat)) :=
  spec_c9_termination_spacing constRng [] [] [] "flood" "meters" 3 0 1 (1 / 300) 0 0
    (by norm_num)

/-- Exact row count of the inner loop for a two-decimal start coordinate and
a positive two-decimal spacing: with enough fuel, the loop produces exactly
`⌊(lon_max - lon) / spacing⌋ + 1` rows when `lon ≤ lon_max` and none
otherwise (the rounding after each increment is exact on two-decimal
values, so the walk is an arithmetic progression). -/
lemma lonLoop_length_exact {σ : Type} (rng : RNG σ)
    (permLarge permMedium permSmall : List ℕ) (hazard_type unit : String)
    (base_intensity lat lon_max grid_spacing : ℚ)
    (w : ℤ) (hw : 1 ≤ w) (hsp : grid_spacing = (w : ℚ) / 100) :
    ∀ (fuel : ℕ) (z : ℤ) (lon : ℚ), lon = (z : ℚ) / 100 →
    ∀ (location_id : ℕ) (s : σ),
    (if lon ≤ lon_max then (Int.floor ((lon_max - lon) / grid_spacing) + 1).toNat else 0)
      ≤ fuel →
    (lonLoop rng permLarge permMedium permSmall hazard_type unit base_intensity
      lat lon_max grid_spacing fuel lon location_id s).1.length
      = (if lon ≤ lon_max then (Int.floor ((lon_max - lon) / grid_spacing) + 1).toNat else 0) := by
  have hspos : 0 < grid_spacing := by
    rw [hsp]
    have h1 : (1:ℚ) ≤ (w:ℚ) := by exact_mod_cast hw
    linarith
  intro fuel
  induction fuel with
  | zero =>
    intro z lon hlon location_id s hfuel
    by_cases h : lon ≤ lon_max
    · exfalso
      rw [if_pos h] at hfuel
      have hFnn : 0 ≤ Int.floor ((lon_max - lon) / grid_spacing) :=
        Int.floor_nonneg.mpr (div_nonneg (by linarith) hspos.le)
      omega
    · rw [if_neg h]
      rfl
  | succ f ih =>
    intro z lon hlon location_id s hfuel
    by_cases h : lon ≤ lon_max
    · rw [if_pos h] at hfuel ⊢
      simp only [lonLoop, if_pos h, List.length_cons]
      have hround : roundTo 2 (lon + grid_spacing) = ((z + w : ℤ) : ℚ) / 100 := by
        rw [hlon, hsp, roundTo2_add]
      have hlon' : ((z + w : ℤ) : ℚ) / 100 = lon + grid_spacing := by
        rw [hlon, hsp]; push_cast; ring
      rw [hround]
      have hFnn : 0 ≤ Int.floor ((lon_max - lon) / grid_spacing) :=
        Int.floor_nonneg.mpr (div_nonneg (by linarith) hspos.le)
      have hstep : (lon_max - (lon + grid_spacing)) / grid_spacing
          = (lon_max - lon) / grid_spacing - 1 := by
        rw [show lon_max - (lon + grid_spacing) = (lon_max - lon) - grid_spacing by ring]
        rw [sub_div, div_self (ne_of_gt hspos)]
      by_cases h2 : ((z + w : ℤ) : ℚ) / 100 ≤ lon_max
      · have hfloor' : Int.floor ((lon_max - ((z + w : ℤ) : ℚ) / 100) / grid_spacing)
            = Int.floor ((lon_max - lon) / grid_spacing) - 1 := by
          rw [hlon', hstep, Int.floor_sub_one]
        have hrec := ih (z + w) (((z + w : ℤ) : ℚ) / 100) rfl (location_id + 1)
          (cellRecord rng permLarge permMedium permSmall hazard_type unit base_intensity
            lat lon location_id s).2
          (by rw [if_pos h2, hfloor']; omega)
        rw [hrec, if_pos h2, hfloor']
        omega
      · have hrec := ih (z + w) (((z + w : ℤ) : ℚ) / 100) rfl (location_id + 1)
          (cellRecord rng permLarge permMedium permSmall hazard_type unit base_intensity
            lat lon location_id s).2
          (by rw [if_neg h2]; omega)
        rw [hrec, if_neg h2]
        have hF0 : Int.floor ((lon_max - lon) / grid_spacing) = 0 := by
          rw [Int.floor_eq_iff]
          constructor
          · push_cast
            exact div_nonneg (by linarith) hspos.le
          · push_cast
            rw [hlon'] at h2
            have hlt : (lon_max - lon) / grid_spacing < 1 := by
              rw [div_lt_one hspos]
              linarith
            linarith
        omega
    · rw [if_neg h] at hfuel ⊢
      simp only [lonLoop, if_neg h, List.length_nil]

/-- Exact row count of the full grid walk: (number of latitude steps) times
(number of longitude steps), each given by the floor formula. -/
lemma latLoop_length_exact {σ : Type} (rng : RNG σ)
    (permLarge permMedium permSmall : List ℕ) (hazard_type unit : String)
    (base_intensity lat_max lon_min lon_max grid_spacing : ℚ) (lonFuel : ℕ)
    (w : ℤ) (hw : 1 ≤ w) (hsp : grid_spacing = (w : ℚ) / 100)
    (z0 : ℤ) (hlon0 : lon_min = (z0 : ℚ) / 100)
    (hlonFuel : (if lon_min ≤ lon_max
        then (Int.floor ((lon_max - lon_min) / grid_spacing) + 1).toNat else 0) ≤ lonFuel) :
    ∀ (fuel : ℕ) (z : ℤ) (lat : ℚ), lat = (z : ℚ) / 100 →
    ∀ (location_id : ℕ) (s : σ),
    (if lat ≤ lat_max then (Int.floor ((lat_max - lat) / grid_spacing) + 1).toNat else 0)
      ≤ fuel →
    (latLoop rng permLarge permMedium permSmall hazard_type unit base_intensity
      lat_max lon_min lon_max grid_spacing lonFuel fuel lat location_id s).1.length
      = (if lat ≤ lat_max then (Int.floor ((lat_max - lat) / grid_spacing) + 1).toNat else 0)
        * (if lon_min ≤ lon_max
            then (Int.floor ((lon_max - lon_min) / grid_spacing) + 1).toNat else 0) := by
  have hspos : 0 < grid_spacing := by
    rw [hsp]
    have h1 : (1:ℚ) ≤ (w:ℚ) := by exact_mod_cast hw
    linarith
  intro fuel
  induction fuel with
  | zero =>
    intro z lat hlat location_id s hfuel
    by_cases h : lat ≤ lat_max
    · exfalso
      rw [if_pos h] at hfuel
      have hFnn : 0 ≤ Int.floor ((lat_max - lat) / grid_spacing) :=
        Int.floor_nonneg.mpr (div_nonneg (by linarith) hspos.le)
      omega
    · rw [if_neg h]
      simp [latLoop]
  | succ f ih =>
    intro z lat hlat location_id s hfuel
    by_cases h : lat ≤ lat_max
    · rw [if_pos h] at hfuel ⊢
      simp only [latLoop, if_pos h, List.length_append]
      have hrow := lonLoop_length_exact rng permLarge permMedium permSmall hazard_type unit
        base_intensity lat lon_max grid_spacing w hw hsp lonFuel z0 lon_min hlon0
        location_id s hlonFuel
      have hround : roundTo 2 (lat + grid_spacing) = ((z + w : ℤ) : ℚ) / 100 := by
        rw [hlat, hsp, roundTo2_add]
      have hlat' : ((z + w : ℤ) : ℚ) / 100 = lat + grid_spacing := by
        rw [hlat, hsp]; push_cast; ring
      rw [hround, hrow]
      have hFnn : 0 ≤ Int.floor ((lat_max - lat) / grid_spacing) :=
        Int.floor_nonneg.mpr (div_nonneg (by linarith) hspos.le)
      have hstep : (lat_max - (lat + grid_spacing)) / grid_spacing
          = (lat_max - lat) / grid_spacing - 1 := by
        rw [show lat_max - (lat + grid_spacing) = (lat_max - lat) - grid_spacing by ring]
        rw [sub_div, div_self (ne_of_gt hspos)]
      by_cases h2 : ((z + w : ℤ) : ℚ) / 100 ≤ lat_max
      · have hfloor' : Int.floor ((lat_max - ((z + w : ℤ) : ℚ) / 100) / grid_spacing)
            = Int.floor ((lat_max - lat) / grid_spacing) - 1 := by
          rw [hlat', hstep, Int.floor_sub_one]
        have hrec := ih (z + w) (((z + w : ℤ) : ℚ) / 100) rfl
          (lonLoop rng permLarge permMedium permSmall hazard_type unit base_intensity
            lat lon_max grid_spacing lonFuel lon_min location_id s).2.1
          (lonLoop rng permLarge permMedium permSmall hazard_type unit base_intensity
            lat lon_max grid_spacing lonFuel lon_min location_id s).2.2
          (by rw [if_pos h2, hfloor']; omega)
        rw [hrec, if_pos h2, hfloor']
        have hexp : (Int.floor ((lat_max - lat) / grid_spacing) + 1).toNat
            = (Int.floor ((lat_max - lat) / grid_spacing) - 1 + 1).toNat + 1 := by omega
        rw [hexp, Nat.succ_mul]
        omega
      · have hrec := ih (z + w) (((z + w : ℤ) : ℚ) / 100) rfl
          (lonLoop rng permLarge permMedium permSmall hazard_type unit base_intensity
            lat lon_max grid_spacing lonFuel lon_min location_id s).2.1
          (lonLoop rng permLarge permMedium permSmall hazard_type unit base_intensity
            lat lon_max grid_spacing lonFuel lon_min location_id s).2.2
          (by rw [if_neg h2]; omega)
        rw [hrec, if_neg h2]
        have hF0 : Int.floor ((lat_max - lat) / grid_spacing) = 0 := by
          rw [Int.floor_eq_iff]
          constructor
          · push_cast
            exact div_nonneg (by linarith) hspos.le
          · push_cast
            rw [hlat'] at h2
            have hlt : (lat_max - lat) / grid_spacing < 1 := by
              rw [div_lt_one hspos]
              linarith
            linarith
        rw [hF0]
        simp
    · rw [if_neg h] at hfuel ⊢
      simp [latLoop, if_neg h]

lemma floor_lat_span : Int.floor (((71:ℚ) - 35) / (0.09 : ℚ)) = 400 := by
  rw [Int.floor_eq_iff]
  constructor
  · push_cast
    norm_num
  · push_cast
    norm_num

lemma floor_lon_span : Int.floor (((40:ℚ) - (-10)) / (0.09 : ℚ)) = 555 := by
  rw [Int.floor_eq_iff]
  constructor
  · push_cast
    norm_num
  · push_cast
    norm_num

/-- C5: over the Europe bounding box `[35, 71] × [-10, 40]` with spacing
`0.09` (with the coordinate rounded to two decimal places after each
increment, which is exact on these two-decimal values), the grid walk
produces exactly `(⌊(71-35)/0.09⌋+1) × (⌊(40-(-10))/0.09⌋+1)`
records, i.e. `401 × 556 = 222956`. -/
theorem spec_c5_grid_cardinality {σ : Type} (rng : RNG σ) (fuel : ℕ)
    (hazard_type unit : String) (base_intensity : ℚ) (seed : Option ℤ) (s : σ)
    (hfuel : 1000 ≤ fuel) :
    (generate_hazard_map rng fuel hazard_type unit 35 71 (-10) 40 (0.09 : ℚ)
        base_intensity seed s).length
      = (Int.floor (((71:ℚ) - 35) / (0.09 : ℚ)) + 1).toNat
        * (Int.floor (((40:ℚ) - (-10)) / (0.09 : ℚ)) + 1).toNat
    ∧ (generate_hazard_map rng fuel hazard_type unit 35 71 (-10) 40 (0.09 : ℚ)
        base_intensity seed s).length = 222956 := by
  have e1 : ((400:ℤ) + 1).toNat = 401 := by decide
  have e2 : ((555:ℤ) + 1).toNat = 556 := by decide
  have hNlat : (if (35:ℚ) ≤ 71
      then (Int.floor (((71:ℚ) - 35) / (0.09 : ℚ)) + 1).toNat else 0) = 401 := by
    rw [if_pos (by norm_num : (35:ℚ) ≤ 71), floor_lat_span, e1]
  have hNlon : (if (-10:ℚ) ≤ 40
      then (Int.floor (((40:ℚ) - (-10)) / (0.09 : ℚ)) + 1).toNat else 0) = 556 := by
    rw [if_pos (by norm_num : (-10:ℚ) ≤ (40:ℚ)), floor_lon_span, e2]
  have key : ∀ (permLarge permMedium permSmall : List ℕ) (s3 : σ),
      (latLoop rng permLarge permMedium permSmall hazard_type unit base_intensity
        71 (-10) 40 (0.09 : ℚ) fuel fuel 35 1 s3).1.length = 222956 := by
    intro permLarge permMedium permSmall s3
    have h := latLoop_length_exact rng permLarge permMedium permSmall hazard_type unit
      base_intensity 71 (-10) 40 (0.09 : ℚ) fuel 9 (by norm_num) (by norm_num)
      (-1000) (by norm_num) (by rw [hNlon]; omega)
      fuel 3500 35 (by norm_num) 1 s3 (by rw [hNlat]; omega)
    rw [hNlat, hNlon] at h
    rw [h]
  have hgoal : (generate_hazard_map rng fuel hazard_type unit 35 71 (-10) 40 (0.09 : ℚ)
      base_intensity seed s).length = 222956 := by
    cases seed with
    | none =>
      unfold generate_hazard_map
      simp only []
      rw [key]
    | some n =>
      unfold generate_hazard_map
      simp only []
      rw [key]
  refine ⟨?_, hgoal⟩
  rw [hgoal, floor_lat_span, floor_lon_span, e1, e2]

/-- Witness for C5 at a concrete fuel. -/
theorem spec_c5_grid_cardinality_witness :
    (generate_hazard_map constRng 1000 "flood" "meters" 35 71 (-10) 40 (0.09 : ℚ)
        3 (some 42) ()).length
      = (Int.floor (((71:ℚ) - 35) / (0.09 : ℚ)) + 1).toNat
        * (Int.floor (((40:ℚ) - (-10)) / (0.09 : ℚ)) + 1).toNat
    ∧ (generate_hazard_map constRng 1000 "flood" "meters" 35 71 (-10) 40 (0.09 : ℚ)
        3 (some 42) ()).length = 222956 :=
  spec_c5_grid_cardinality constRng 1000 "flood" "meters" 3 (some 42) () (by norm_num)
